import Mathlib

/-!
# Verification of the pyABC ABC-SMC run engine

The repository material under `src/` consists of two tutorial notebooks
(`quickstart.ipynb`, `resuming.ipynb`) exercising the pyABC ABC-SMC engine:
`ABCSMC.new`, `ABCSMC.load`, `ABCSMC.run`, `History.n_populations`,
`History.get_model_probabilities`, and the default `MedianEpsilon` schedule.
The engine implementation itself is not among the provided files, so the
definitions below are modelled from the specification's description of the
Run Engine, Population Sampler, Epsilon Schedule and History/Persistence
store, and checked against the behaviour exhibited by the notebooks.

Numeric values are rationals (`ℚ`): distances, thresholds and importance
weights are exact here, so "sums to 1 within tolerance" is proved exactly.
Randomness (prior draws, model simulation, perturbation) is abstracted as an
oracle stream of proposal outcomes: `none` models a model invocation that
raises, `some p` a simulation that completed and produced a candidate
particle with its distance and importance weight already evaluated.
-/

namespace PyABC

/-- Modelled from the spec: a Parameter Sample is a mapping from parameter
name to numeric value (spec §3); the engine never inspects it. -/
abbrev ParameterSample := List (String × ℚ)

/-- Modelled from the spec: Summary Statistics map measure names to numeric
values (spec §2, §6); the engine only consumes their distance to the data. -/
abbrev SummaryStatistics := List (String × ℚ)

/-- Modelled from the spec: a Particle is (model index, parameter sample,
simulated summary statistics, distance, importance weight), immutable once
accepted into a population (spec §3).  The missing pyABC particle class is
reconstructed from this description. -/
structure Particle where
  modelIndex : ℕ
  params : ParameterSample
  sumstats : SummaryStatistics
  distance : ℚ
  weight : ℚ
deriving Repr, DecidableEq

/-- Modelled from the spec: a Population is (generation index t, epsilon
threshold used, accepted Particles across all models) (spec §3). -/
structure Population where
  t : ℕ
  epsilon : ℚ
  particles : List Particle
deriving Repr, DecidableEq

/-- The recorded distances of a population, as served by the History store's
`getDistances` and consumed by the Epsilon Schedule (spec §4.4). -/
def Population.distances (pop : Population) : List ℚ :=
  pop.particles.map Particle.distance

/-- Modelled from the spec: the single fatal sampling error of the
Population Sampler, `SamplingExhaustedError` — retry budget exceeded while
filling a population (spec §7). -/
inductive SamplingError where
  | samplingExhausted
deriving Repr, DecidableEq

/-- Modelled from the spec: the Epsilon Schedule's default policy, the
median of the previous population's accepted distances (spec §4.3,
`MedianEpsilon` in the quickstart notebook).  The median of a list is the
middle element of its sorted arrangement, or the mean of the two middle
elements when the length is even; the median of an empty list is 0 by
convention (never consulted for a nonempty population). -/
def medianEpsilon (l : List ℚ) : ℚ :=
  let s := List.insertionSort (· ≤ ·) l
  if l.length % 2 = 1 then s.getD (l.length / 2) 0
  else if l.length = 0 then 0
  else (s.getD (l.length / 2 - 1) 0 + s.getD (l.length / 2) 0) / 2

/-- Modelled from the spec: the Population Sampler's draw loop (spec §4.2).
Given the current threshold `eps`, an oracle `draws` of proposal outcomes
(`draws idx = none` models a Model invocation that raises at attempt `idx`),
a remaining attempt budget and the number of particles still needed, it
returns the accepted particles: a draw is accepted iff its distance is at
most `eps`; a raising draw is discarded and the next attempt is made; when
the budget is exceeded before the population is filled the sampler fails
with `SamplingExhaustedError`. -/
def fillPopulation (eps : ℚ) (draws : ℕ → Option Particle) :
    ℕ → ℕ → ℕ → Except SamplingError (List Particle)
  | _, _, 0 => .ok []
  | 0, _, _ + 1 => .error .samplingExhausted
  | b + 1, idx, n + 1 =>
    match draws idx with
    | none => fillPopulation eps draws b (idx + 1) (n + 1)
    | some p =>
      if p.distance ≤ eps then
        match fillPopulation eps draws b (idx + 1) n with
        | .ok l => .ok (p :: l)
        | .error e => .error e
      else fillPopulation eps draws b (idx + 1) (n + 1)

/-- Modelled from the spec: the static configuration of one ABC-SMC run —
the model set's size, the configured population size N, the per-population
retry budget, the prior-predictive distance sample used to seed the initial
epsilon at `new` (spec §4.1), and the proposal oracle per generation
(`draws t idx` is attempt `idx` while filling population `t`). -/
structure Config where
  numModels : ℕ
  populationSize : ℕ
  retryBudget : ℕ
  priorPredictiveDistances : List ℚ
  draws : ℕ → ℕ → Option Particle

/-- Modelled from the spec: the engine-visible state of one Run — the
durably persisted sequence of completed populations (the History
projection) together with the current epsilon, i.e. the threshold the next
population will be sampled at (spec §3, §4.1). -/
structure Engine where
  history : List Population
  currentEpsilon : ℚ
deriving Repr, DecidableEq

/-- Modelled from the spec: `new` initializes a fresh Run with no completed
populations and computes the initial epsilon from the distance distribution
of an unconditional prior-predictive sample (spec §4.1; the quickstart
notebook logs `initial epsilon is ...` at `new` time). -/
def newEngine (cfg : Config) : Engine :=
  { history := [], currentEpsilon := medianEpsilon cfg.priorPredictiveDistances }

/-- Modelled from the spec: `load` reattaches an engine to an existing Run,
restoring the last completed population's state from the store — in
particular the current epsilon is re-derived from the last population's
recorded distances, or from the prior-predictive sample when no population
has completed yet (spec §4.1, §4.4). -/
def loadEngine (cfg : Config) (h : List Population) : Engine :=
  { history := h
    currentEpsilon :=
      match h.getLast? with
      | some pop => medianEpsilon pop.distances
      | none => medianEpsilon cfg.priorPredictiveDistances }

/-- Modelled from the spec: one iteration of the run loop — invoke the
Population Sampler at the current epsilon to fill a new Population, append
it atomically to the durable History, and request the next epsilon from the
Epsilon Schedule seeded by this population's accepted distances (spec §4.1,
§4.4).  On sampler failure nothing is persisted. -/
def populateStep (cfg : Config) (eng : Engine) : Except SamplingError Engine :=
  match fillPopulation eng.currentEpsilon (cfg.draws eng.history.length)
      cfg.retryBudget 0 cfg.populationSize with
  | .error e => .error e
  | .ok ps =>
    .ok { history := eng.history ++ [⟨eng.history.length, eng.currentEpsilon, ps⟩]
          currentEpsilon := medianEpsilon (ps.map Particle.distance) }

/-- Modelled from the spec: the possible stopping causes of one `run`
invocation — minimum epsilon reached (reported with precedence), the
allowed number of populations produced, or the sampler's retry budget
exceeded (spec §4.1, §7). -/
inductive RunOutcome where
  | converged
  | maxPopulationsReached
  | exhausted
deriving Repr, DecidableEq

/-- The value of one `run` invocation: the final engine state (whose
`history` field is the returned History handle) plus the stopping cause. -/
structure RunResult where
  state : Engine
  outcome : RunOutcome
deriving Repr, DecidableEq

/-- Modelled from the spec: the Run Engine's population loop — while the
populations completed in this call are fewer than `maxPopulations`
(`remaining` counts those still allowed) and the current epsilon exceeds
`minimumEpsilon`, produce, persist and account one more population;
terminate as soon as either bound is hit, minimum-epsilon taking precedence
in reporting (spec §4.1). -/
def runLoop (cfg : Config) (minimumEpsilon : ℚ) :
    ℕ → Engine → RunResult
  | 0, eng =>
    if eng.currentEpsilon ≤ minimumEpsilon then ⟨eng, .converged⟩
    else ⟨eng, .maxPopulationsReached⟩
  | r + 1, eng =>
    if eng.currentEpsilon ≤ minimumEpsilon then ⟨eng, .converged⟩
    else
      match populateStep cfg eng with
      | .error _ => ⟨eng, .exhausted⟩
      | .ok eng' => runLoop cfg minimumEpsilon r eng'

/-- Modelled from the spec: the History query `n_populations` — the number
of completed populations recorded for the run (resuming notebook:
`history.n_populations`). -/
def nPopulations (h : List Population) : ℕ := h.length

/-- The per-model unnormalized mass in one population: the sum of the
importance weights of that model's accepted particles (spec §3). -/
def modelWeight (pop : Population) (m : ℕ) : ℚ :=
  ((pop.particles.filter (fun p => p.modelIndex = m)).map Particle.weight).sum

/-- The total importance weight of a population across all models. -/
def totalWeight (pop : Population) : ℚ :=
  (pop.particles.map Particle.weight).sum

/-- Modelled from the spec: the Model Posterior at one generation — the
probability mass of model `m`, derived from the per-model particle weights
normalized over the whole population (spec §3). -/
def modelProbability (pop : Population) (m : ℕ) : ℚ :=
  modelWeight pop m / totalWeight pop

/-- Modelled from the spec: the History query `getModelProbabilities` — for
each recorded generation, the model posterior row over the model set
(spec §4.4; `history.get_model_probabilities` in the quickstart notebook). -/
def getModelProbabilities (numModels : ℕ) (h : List Population) : List (List ℚ) :=
  h.map (fun pop => (List.range numModels).map (modelProbability pop))

/-- Modelled from the spec: the user-facing ABCSMC object of the notebooks,
holding the run configuration and the engine state; its `history` attribute
exposes the same durable History the `run` method returns a handle to. -/
structure ABCSMC where
  cfg : Config
  eng : Engine

/-- The `history` attribute of the ABCSMC object (quickstart notebook:
`abc.history`). -/
def ABCSMC.history (abc : ABCSMC) : List Population := abc.eng.history

/-- Modelled from the spec: the `run` method — execute the population loop
and return both the updated object and the History handle of the run
(spec §4.1; the quickstart notebook checks `history is abc.history`). -/
def ABCSMC.run (abc : ABCSMC) (minimumEpsilon : ℚ) (maxPopulations : ℕ) :
    ABCSMC × List Population :=
  let r := runLoop abc.cfg minimumEpsilon maxPopulations abc.eng
  (⟨abc.cfg, r.state⟩, r.state.history)

/-! ## Concrete data for exercising the engine on explicit inputs -/

/-- A concrete particle: model 0, unit distance, unit weight. -/
def sampleParticle : Particle := ⟨0, [], [], 1, 1⟩

/-- A concrete single-model run configuration whose proposal oracle always
succeeds with `sampleParticle`. -/
def sampleConfig : Config :=
  { numModels := 1
    populationSize := 1
    retryBudget := 2
    priorPredictiveDistances := [1]
    draws := fun _ _ => some sampleParticle }

/-- A proposal oracle whose first attempt raises and whose later attempts
succeed. -/
def failingDraws : ℕ → Option Particle :=
  fun i => if i = 0 then none else some sampleParticle

/-- The engine state of `sampleConfig` after its first completed
population. -/
def sampleEngine1 : Engine := ⟨[⟨0, 1, [sampleParticle]⟩], 1⟩

/-- The first population `sampleConfig` produces. -/
def samplePopulation0 : Population := ⟨0, 1, [sampleParticle]⟩

/-- The persisted history of `sampleConfig` after a fresh run of up to
three populations at minimum epsilon 1/10, mirroring the resuming
notebook's first `run` call. -/
def sampleHistory3 : List Population :=
  (runLoop sampleConfig (mkRat 1 10) 3 (newEngine sampleConfig)).state.history

/-! ## Basic lemmas about the Population Sampler's draw loop -/

theorem fillPopulation_zero_need (eps : ℚ) (draws : ℕ → Option Particle)
    (b idx : ℕ) : fillPopulation eps draws b idx 0 = .ok [] := by
  cases b <;> rfl

theorem fillPopulation_no_budget (eps : ℚ) (draws : ℕ → Option Particle)
    (idx n : ℕ) : fillPopulation eps draws 0 idx (n + 1) = .error .samplingExhausted := rfl

theorem fillPopulation_succ (eps : ℚ) (draws : ℕ → Option Particle)
    (b idx n : ℕ) :
    fillPopulation eps draws (b + 1) idx (n + 1) =
      match draws idx with
      | none => fillPopulation eps draws b (idx + 1) (n + 1)
      | some p =>
        if p.distance ≤ eps then
          match fillPopulation eps draws b (idx + 1) n with
          | .ok l => .ok (p :: l)
          | .error e => .error e
        else fillPopulation eps draws b (idx + 1) (n + 1) := rfl

/-- A successful sampler call returns exactly the requested number of
accepted particles. -/
theorem fillPopulation_ok_length {eps : ℚ} {draws : ℕ → Option Particle} :
    ∀ {b idx n : ℕ} {ps : List Particle},
      fillPopulation eps draws b idx n = .ok ps → ps.length = n := by
  intro b
  induction b with
  | zero =>
    intro idx n ps h
    cases n with
    | zero =>
      rw [fillPopulation_zero_need] at h
      cases h
      rfl
    | succ n =>
      rw [fillPopulation_no_budget] at h
      cases h
  | succ b ih =>
    intro idx n ps h
    cases n with
    | zero =>
      rw [fillPopulation_zero_need] at h
      cases h
      rfl
    | succ n =>
      rw [fillPopulation_succ] at h
      cases hd : draws idx with
      | none =>
        rw [hd] at h
        exact ih h
      | some p =>
        simp only [hd] at h
        by_cases hacc : p.distance ≤ eps
        · rw [if_pos hacc] at h
          cases hrec : fillPopulation eps draws b (idx + 1) n with
          | ok l =>
            rw [hrec] at h
            cases h
            simpa using ih hrec
          | error e =>
            rw [hrec] at h
            cases h
        · rw [if_neg hacc] at h
          exact ih h

/-- Every particle a successful sampler call accepts satisfies the
acceptance test (distance at most the current epsilon) and originates in a
successful draw of the proposal oracle. -/
theorem fillPopulation_ok_mem {eps : ℚ} {draws : ℕ → Option Particle} :
    ∀ {b idx n : ℕ} {ps : List Particle},
      fillPopulation eps draws b idx n = .ok ps →
      ∀ p ∈ ps, p.distance ≤ eps ∧ ∃ i, draws i = some p := by
  intro b
  induction b with
  | zero =>
    intro idx n ps h
    cases n with
    | zero =>
      rw [fillPopulation_zero_need] at h
      cases h
      intro p hp
      cases hp
    | succ n =>
      rw [fillPopulation_no_budget] at h
      cases h
  | succ b ih =>
    intro idx n ps h
    cases n with
    | zero =>
      rw [fillPopulation_zero_need] at h
      cases h
      intro p hp
      cases hp
    | succ n =>
      rw [fillPopulation_succ] at h
      cases hd : draws idx with
      | none =>
        rw [hd] at h
        exact ih h
      | some q =>
        simp only [hd] at h
        by_cases hacc : q.distance ≤ eps
        · rw [if_pos hacc] at h
          cases hrec : fillPopulation eps draws b (idx + 1) n with
          | ok l =>
            rw [hrec] at h
            cases h
            intro p hp
            rcases List.mem_cons.mp hp with hpq | hpl
            · subst hpq
              exact ⟨hacc, idx, hd⟩
            · exact ih hrec p hpl
          | error e =>
            rw [hrec] at h
            cases h
        · rw [if_neg hacc] at h
          exact ih h

/-! ## The median schedule never exceeds a bound on its inputs -/

/-- The median of a nonempty list of values that are all at most `e` is
itself at most `e`. -/
theorem medianEpsilon_le {l : List ℚ} {e : ℚ} (hne : l ≠ [])
    (hb : ∀ x ∈ l, x ≤ e) : medianEpsilon l ≤ e := by
  have hlen : 0 < l.length := List.length_pos.mpr hne
  have hslen : (List.insertionSort (· ≤ ·) l).length = l.length :=
    List.length_insertionSort _ l
  have hmem : ∀ i (hi : i < l.length),
      (List.insertionSort (· ≤ ·) l).getD i 0 ≤ e := by
    intro i hi
    have hi' : i < (List.insertionSort (· ≤ ·) l).length := by omega
    rw [List.getD_eq_getElem _ _ hi']
    exact hb _ ((List.perm_insertionSort (· ≤ ·) l).mem_iff.mp (List.getElem_mem hi'))
  unfold medianEpsilon
  by_cases hodd : l.length % 2 = 1
  · rw [if_pos hodd]
    exact hmem _ (Nat.div_lt_self hlen one_lt_two)
  · rw [if_neg hodd, if_neg (by omega)]
    have h1 : (List.insertionSort (· ≤ ·) l).getD (l.length / 2 - 1) 0 ≤ e := by
      refine hmem _ ?_
      have := Nat.div_lt_self hlen one_lt_two
      omega
    have h2 : (List.insertionSort (· ≤ ·) l).getD (l.length / 2) 0 ≤ e :=
      hmem _ (Nat.div_lt_self hlen one_lt_two)
    linarith

/-! ## Lemmas about one iteration of the run loop -/

/-- A successful `populateStep` appends exactly one completed population —
sampled at the engine's current epsilon, carrying the next generation
index — and reseeds the epsilon from that population's distances. -/
theorem populateStep_ok {cfg : Config} {eng eng' : Engine}
    (h : populateStep cfg eng = .ok eng') :
    ∃ ps, fillPopulation eng.currentEpsilon (cfg.draws eng.history.length)
        cfg.retryBudget 0 cfg.populationSize = .ok ps ∧
      eng' = { history := eng.history ++ [⟨eng.history.length, eng.currentEpsilon, ps⟩]
               currentEpsilon := medianEpsilon (ps.map Particle.distance) } := by
  unfold populateStep at h
  cases hfill : fillPopulation eng.currentEpsilon (cfg.draws eng.history.length)
      cfg.retryBudget 0 cfg.populationSize with
  | error e =>
    rw [hfill] at h
    cases h
  | ok ps =>
    rw [hfill] at h
    cases h
    exact ⟨ps, rfl, rfl⟩

/-- A successful `populateStep` does not increase the current epsilon, as
the next threshold is the median of distances that were all accepted at the
previous one (population size must be positive so the median is over a
nonempty sample). -/
theorem populateStep_eps_le {cfg : Config} {eng eng' : Engine}
    (hN : 0 < cfg.populationSize)
    (h : populateStep cfg eng = .ok eng') :
    eng'.currentEpsilon ≤ eng.currentEpsilon := by
  obtain ⟨ps, hfill, rfl⟩ := populateStep_ok h
  have hlen : ps.length = cfg.populationSize := fillPopulation_ok_length hfill
  have hne : ps.map Particle.distance ≠ [] := by
    intro hnil
    rw [List.map_eq_nil_iff] at hnil
    subst hnil
    simp at hlen
    omega
  refine medianEpsilon_le hne ?_
  intro x hx
  obtain ⟨p, hp, rfl⟩ := List.mem_map.mp hx
  exact (fillPopulation_ok_mem hfill p hp).1

/-! ## Lemmas about the run loop -/

theorem runLoop_zero (cfg : Config) (minimumEpsilon : ℚ) (eng : Engine) :
    runLoop cfg minimumEpsilon 0 eng =
      if eng.currentEpsilon ≤ minimumEpsilon then ⟨eng, .converged⟩
      else ⟨eng, .maxPopulationsReached⟩ := rfl

theorem runLoop_succ (cfg : Config) (minimumEpsilon : ℚ) (r : ℕ) (eng : Engine) :
    runLoop cfg minimumEpsilon (r + 1) eng =
      if eng.currentEpsilon ≤ minimumEpsilon then ⟨eng, .converged⟩
      else
        match populateStep cfg eng with
        | .error _ => ⟨eng, .exhausted⟩
        | .ok eng' => runLoop cfg minimumEpsilon r eng' := rfl

theorem runLoop_zero_state (cfg : Config) (minimumEpsilon : ℚ) (eng : Engine) :
    (runLoop cfg minimumEpsilon 0 eng).state = eng := by
  rw [runLoop_zero]
  split <;> rfl

/-- Every population recorded by the run loop either was already in the
starting history or is a complete population of accepted, oracle-produced
particles sampled at the epsilon recorded with it. -/
theorem runLoop_history_mem {cfg : Config} {minimumEpsilon : ℚ}
    (PP : Particle → Prop)
    (hdraws : ∀ t i p, cfg.draws t i = some p → PP p) :
    ∀ (n : ℕ) (eng : Engine),
      ∀ pop ∈ (runLoop cfg minimumEpsilon n eng).state.history,
        pop ∈ eng.history ∨
          (pop.particles.length = cfg.populationSize ∧
            ∀ p ∈ pop.particles, PP p ∧ p.distance ≤ pop.epsilon) := by
  intro n
  induction n with
  | zero =>
    intro eng pop hmem
    rw [runLoop_zero_state] at hmem
    exact Or.inl hmem
  | succ r ih =>
    intro eng pop hmem
    rw [runLoop_succ] at hmem
    by_cases hconv : eng.currentEpsilon ≤ minimumEpsilon
    · rw [if_pos hconv] at hmem
      exact Or.inl hmem
    · rw [if_neg hconv] at hmem
      cases hstep : populateStep cfg eng with
      | error e =>
        simp only [hstep] at hmem
        exact Or.inl hmem
      | ok eng' =>
        simp only [hstep] at hmem
        rcases ih eng' pop hmem with hold | hnew
        · obtain ⟨ps, hfill, heq⟩ := populateStep_ok hstep
          rw [heq] at hold
          simp only [List.mem_append, List.mem_singleton] at hold
          rcases hold with hin | rfl
          · exact Or.inl hin
          · refine Or.inr ⟨fillPopulation_ok_length hfill, ?_⟩
            intro p hp
            have hm := fillPopulation_ok_mem hfill p hp
            exact ⟨hdraws _ _ _ hm.2.choose_spec, hm.1⟩
        · exact Or.inr hnew

/-- The run loop adds at most `n` populations. -/
theorem runLoop_length_le (cfg : Config) (minimumEpsilon : ℚ) :
    ∀ (n : ℕ) (eng : Engine),
      (runLoop cfg minimumEpsilon n eng).state.history.length ≤
        eng.history.length + n := by
  intro n
  induction n with
  | zero =>
    intro eng
    rw [runLoop_zero_state]
    omega
  | succ r ih =>
    intro eng
    by_cases hconv : eng.currentEpsilon ≤ minimumEpsilon
    · rw [runLoop_succ, if_pos hconv]
      exact Nat.le_add_right _ _
    · cases hstep : populateStep cfg eng with
      | error e =>
        simp only [runLoop_succ, if_neg hconv, hstep]
        exact Nat.le_add_right _ _
      | ok eng' =>
        simp only [runLoop_succ, if_neg hconv, hstep]
        obtain ⟨ps, hfill, heq⟩ := populateStep_ok hstep
        have := ih eng'
        have hlen : eng'.history.length = eng.history.length + 1 := by
          rw [heq]
          simp
        omega

/-- The run loop never increases the current epsilon when the population
size is positive. -/
theorem runLoop_eps_le {cfg : Config} (minimumEpsilon : ℚ)
    (hN : 0 < cfg.populationSize) :
    ∀ (n : ℕ) (eng : Engine),
      (runLoop cfg minimumEpsilon n eng).state.currentEpsilon ≤
        eng.currentEpsilon := by
  intro n
  induction n with
  | zero =>
    intro eng
    rw [runLoop_zero_state]
  | succ r ih =>
    intro eng
    rw [runLoop_succ]
    by_cases hconv : eng.currentEpsilon ≤ minimumEpsilon
    · rw [if_pos hconv]
    · rw [if_neg hconv]
      cases hstep : populateStep cfg eng with
      | error e => exact le_refl _
      | ok eng' => exact le_trans (ih eng') (populateStep_eps_le hN hstep)

/-- The loop reports convergence exactly when the final epsilon is at or
below the requested minimum: the stopping cause is readable off the
returned state. -/
theorem runLoop_converged_iff (cfg : Config) (minimumEpsilon : ℚ) :
    ∀ (n : ℕ) (eng : Engine),
      (runLoop cfg minimumEpsilon n eng).outcome = .converged ↔
        (runLoop cfg minimumEpsilon n eng).state.currentEpsilon ≤ minimumEpsilon := by
  intro n
  induction n with
  | zero =>
    intro eng
    rw [runLoop_zero]
    by_cases hconv : eng.currentEpsilon ≤ minimumEpsilon
    · rw [if_pos hconv]
      simpa using hconv
    · rw [if_neg hconv]
      constructor
      · intro h
        cases h
      · intro h
        exact absurd h hconv
  | succ r ih =>
    intro eng
    rw [runLoop_succ]
    by_cases hconv : eng.currentEpsilon ≤ minimumEpsilon
    · rw [if_pos hconv]
      simpa using hconv
    · rw [if_neg hconv]
      cases hstep : populateStep cfg eng with
      | error e =>
        constructor
        · intro h
          cases h
        · intro h
          exact absurd h hconv
      | ok eng' => exact ih eng'

/-- When the loop stops because the allowed number of populations was
produced, it produced exactly that many and the epsilon bound was never
hit. -/
theorem runLoop_max_reached (cfg : Config) (minimumEpsilon : ℚ) :
    ∀ (n : ℕ) (eng : Engine),
      (runLoop cfg minimumEpsilon n eng).outcome = .maxPopulationsReached →
        (runLoop cfg minimumEpsilon n eng).state.history.length =
            eng.history.length + n ∧
          minimumEpsilon < (runLoop cfg minimumEpsilon n eng).state.currentEpsilon := by
  intro n
  induction n with
  | zero =>
    intro eng h
    rw [runLoop_zero] at h ⊢
    by_cases hconv : eng.currentEpsilon ≤ minimumEpsilon
    · rw [if_pos hconv] at h
      cases h
    · rw [if_neg hconv] at h ⊢
      exact ⟨rfl, lt_of_not_le hconv⟩
  | succ r ih =>
    intro eng h
    by_cases hconv : eng.currentEpsilon ≤ minimumEpsilon
    · rw [runLoop_succ, if_pos hconv] at h
      cases h
    · cases hstep : populateStep cfg eng with
      | error e =>
        simp only [runLoop_succ, if_neg hconv, hstep] at h
        cases h
      | ok eng' =>
        simp only [runLoop_succ, if_neg hconv, hstep] at h ⊢
        obtain ⟨ps, hfill, heq⟩ := populateStep_ok hstep
        obtain ⟨h1, h2⟩ := ih eng' h
        refine ⟨?_, h2⟩
        rw [h1, heq]
        simp only [List.length_append, List.length_singleton]
        omega

/-! ## The model posterior sums to one -/

/-- Summing the per-model weight masses over the full model range recovers
the total weight of the population, because each particle is counted by
exactly one model index. -/
theorem sum_weight_filter {M : ℕ} :
    ∀ ps : List Particle, (∀ p ∈ ps, p.modelIndex < M) →
      ∑ m ∈ Finset.range M,
          ((ps.filter (fun q => q.modelIndex = m)).map Particle.weight).sum =
        (ps.map Particle.weight).sum := by
  intro ps
  induction ps with
  | nil => simp
  | cons p ps ih =>
    intro hidx
    have hpM : p.modelIndex < M := hidx p (List.mem_cons_self p ps)
    have hidx' : ∀ q ∈ ps, q.modelIndex < M := fun q hq =>
      hidx q (List.mem_cons_of_mem p hq)
    have hsplit : ∀ m ∈ Finset.range M,
        (((p :: ps).filter (fun q => q.modelIndex = m)).map Particle.weight).sum =
          (if p.modelIndex = m then p.weight else 0) +
            ((ps.filter (fun q => q.modelIndex = m)).map Particle.weight).sum := by
      intro m _
      by_cases hm : p.modelIndex = m
      · simp [List.filter_cons, hm]
      · simp [List.filter_cons, hm]
    rw [Finset.sum_congr rfl hsplit, Finset.sum_add_distrib,
      Finset.sum_ite_eq (Finset.range M) p.modelIndex (fun _ => p.weight),
      if_pos (Finset.mem_range.mpr hpM), ih hidx']
    simp

/-- Summing the per-model weight masses over the full model range recovers
the total weight of the population, because each particle is counted by
exactly one model index. -/
theorem sum_modelWeight {M : ℕ} {pop : Population}
    (hidx : ∀ p ∈ pop.particles, p.modelIndex < M) :
    ∑ m ∈ Finset.range M, modelWeight pop m = totalWeight pop :=
  sum_weight_filter pop.particles hidx

/-- A population of positively weighted particles has positive total
weight. -/
theorem totalWeight_pos {pop : Population} (hne : pop.particles ≠ [])
    (hpos : ∀ p ∈ pop.particles, 0 < p.weight) : 0 < totalWeight pop := by
  unfold totalWeight
  refine List.sum_pos _ ?_ ?_
  · intro x hx
    obtain ⟨p, hp, rfl⟩ := List.mem_map.mp hx
    exact hpos p hp
  · simpa [List.map_eq_nil_iff] using hne

/-- The model posterior of a nonempty population of positively weighted,
in-range particles sums to exactly one over the model set. -/
theorem sum_modelProbability {M : ℕ} {pop : Population}
    (hne : pop.particles ≠ [])
    (hpos : ∀ p ∈ pop.particles, 0 < p.weight)
    (hidx : ∀ p ∈ pop.particles, p.modelIndex < M) :
    ∑ m ∈ Finset.range M, modelProbability pop m = 1 := by
  have htot : 0 < totalWeight pop := totalWeight_pos hne hpos
  unfold modelProbability
  rw [← Finset.sum_div, sum_modelWeight hidx, div_self (ne_of_gt htot)]

/-- Summing a list built by mapping over `List.range` agrees with the
corresponding `Finset.range` sum. -/
theorem list_range_map_sum (f : ℕ → ℚ) :
    ∀ M : ℕ, ((List.range M).map f).sum = ∑ m ∈ Finset.range M, f m := by
  intro M
  induction M with
  | zero => simp
  | succ M ih => simp [List.range_succ, Finset.sum_range_succ, ih]

/-! ## Claim theorems -/

/-- C1: Persistence of a population is atomic and ordered: every population
a run records is complete (exactly the configured size — never a partial
one), a subsequent `load` of the durable history reports exactly as many
completed populations as were persisted, and each step of the loop either
durably appends one whole completed population or fails leaving the
history untouched. -/
theorem population_persistence_atomic (cfg : Config) (minimumEpsilon : ℚ)
    (n : ℕ) (eng : Engine)
    (hstart : ∀ pop ∈ eng.history, pop.particles.length = cfg.populationSize) :
    (∀ pop ∈ (runLoop cfg minimumEpsilon n eng).state.history,
        pop.particles.length = cfg.populationSize)
    ∧ nPopulations
          (loadEngine cfg (runLoop cfg minimumEpsilon n eng).state.history).history
        = (runLoop cfg minimumEpsilon n eng).state.history.length
    ∧ ∀ e : Engine,
        (∃ ps, ps.length = cfg.populationSize ∧
            populateStep cfg e =
              .ok { history := e.history ++ [⟨e.history.length, e.currentEpsilon, ps⟩]
                    currentEpsilon := medianEpsilon (ps.map Particle.distance) })
        ∨ populateStep cfg e = .error .samplingExhausted := by
  refine ⟨?_, rfl, ?_⟩
  · intro pop hpop
    rcases runLoop_history_mem (fun _ => True) (fun _ _ _ _ => trivial)
        n eng pop hpop with h | h
    · exact hstart pop h
    · exact h.1
  · intro e
    cases hfill : fillPopulation e.currentEpsilon (cfg.draws e.history.length)
        cfg.retryBudget 0 cfg.populationSize with
    | error err =>
      right
      unfold populateStep
      rw [hfill]
    | ok ps =>
      left
      refine ⟨ps, fillPopulation_ok_length hfill, ?_⟩
      unfold populateStep
      rw [hfill]

/-- C2: The run loop iterates exactly while the populations completed in
this call are below `maxPopulations` and the current epsilon is above
`minimumEpsilon`; it stops as soon as either bound is hit (epsilon taking
precedence), and the stopping cause is readable off the returned state: the
outcome is `converged` iff the final epsilon is at most the minimum, and a
`maxPopulationsReached` outcome comes with exactly `maxPopulations` added
populations and a final epsilon still above the minimum. -/
theorem run_loop_stops_at_bounds (cfg : Config) (minimumEpsilon : ℚ)
    (n : ℕ) (eng : Engine) :
    (∀ (r : ℕ) (eng' : Engine), n = r + 1 →
        minimumEpsilon < eng.currentEpsilon →
        populateStep cfg eng = .ok eng' →
        runLoop cfg minimumEpsilon n eng = runLoop cfg minimumEpsilon r eng')
    ∧ (eng.currentEpsilon ≤ minimumEpsilon →
        runLoop cfg minimumEpsilon n eng = ⟨eng, .converged⟩)
    ∧ (minimumEpsilon < eng.currentEpsilon →
        runLoop cfg minimumEpsilon 0 eng = ⟨eng, .maxPopulationsReached⟩)
    ∧ ((runLoop cfg minimumEpsilon n eng).outcome = .converged ↔
        (runLoop cfg minimumEpsilon n eng).state.currentEpsilon ≤ minimumEpsilon)
    ∧ ((runLoop cfg minimumEpsilon n eng).outcome = .maxPopulationsReached →
        (runLoop cfg minimumEpsilon n eng).state.history.length
            = eng.history.length + n
          ∧ minimumEpsilon < (runLoop cfg minimumEpsilon n eng).state.currentEpsilon) := by
  refine ⟨?_, ?_, ?_, runLoop_converged_iff cfg minimumEpsilon n eng,
    runLoop_max_reached cfg minimumEpsilon n eng⟩
  · intro r eng' hn hlt hstep
    subst hn
    simp only [runLoop_succ, if_neg (not_le_of_lt hlt), hstep]
  · intro hle
    cases n with
    | zero => rw [runLoop_zero, if_pos hle]
    | succ r => rw [runLoop_succ, if_pos hle]
  · intro hlt
    rw [runLoop_zero, if_neg (not_le_of_lt hlt)]

/-- C3: Resuming via `load` and running `m` further populations yields
exactly the prior number of populations plus `m`, unless termination by
`minimumEpsilon` occurs first, in which case strictly fewer are produced
and the final epsilon is at or below the minimum. -/
theorem resume_monotonic_progress (cfg : Config) (h : List Population)
    (minimumEpsilon : ℚ) (m : ℕ)
    (hok : (runLoop cfg minimumEpsilon m (loadEngine cfg h)).outcome ≠ .exhausted) :
    nPopulations (runLoop cfg minimumEpsilon m (loadEngine cfg h)).state.history
        = nPopulations h + m
    ∨ (nPopulations (runLoop cfg minimumEpsilon m (loadEngine cfg h)).state.history
          < nPopulations h + m
        ∧ (runLoop cfg minimumEpsilon m (loadEngine cfg h)).state.currentEpsilon
            ≤ minimumEpsilon) := by
  have hload : (loadEngine cfg h).history = h := rfl
  cases houtcome : (runLoop cfg minimumEpsilon m (loadEngine cfg h)).outcome with
  | converged =>
    have heps := (runLoop_converged_iff cfg minimumEpsilon m
      (loadEngine cfg h)).mp houtcome
    have hlen := runLoop_length_le cfg minimumEpsilon m (loadEngine cfg h)
    rw [hload] at hlen
    rcases Nat.lt_or_ge
        (runLoop cfg minimumEpsilon m (loadEngine cfg h)).state.history.length
        (h.length + m) with hlt | hge
    · exact Or.inr ⟨hlt, heps⟩
    · exact Or.inl (le_antisymm hlen hge)
  | maxPopulationsReached =>
    have := (runLoop_max_reached cfg minimumEpsilon m (loadEngine cfg h) houtcome).1
    rw [hload] at this
    exact Or.inl this
  | exhausted => exact absurd houtcome hok

/-- C4: Every model-posterior row the engine records — as returned by
`getModelProbabilities` — sums to exactly one across the model set, for
every generation of every run whose proposal oracle produces positively
weighted particles of in-range model indices. -/
theorem model_probabilities_sum_to_one (cfg : Config) (minimumEpsilon : ℚ)
    (n : ℕ) (hN : 0 < cfg.populationSize)
    (hdraws : ∀ t i p, cfg.draws t i = some p →
        0 < p.weight ∧ p.modelIndex < cfg.numModels) :
    (∀ pop ∈ (runLoop cfg minimumEpsilon n (newEngine cfg)).state.history,
        ∑ m ∈ Finset.range cfg.numModels, modelProbability pop m = 1)
    ∧ ∀ row ∈ getModelProbabilities cfg.numModels
          (runLoop cfg minimumEpsilon n (newEngine cfg)).state.history,
        row.sum = 1 := by
  have hpop : ∀ pop ∈ (runLoop cfg minimumEpsilon n (newEngine cfg)).state.history,
      ∑ m ∈ Finset.range cfg.numModels, modelProbability pop m = 1 := by
    intro pop hpopmem
    rcases runLoop_history_mem
        (fun p => 0 < p.weight ∧ p.modelIndex < cfg.numModels) hdraws
        n (newEngine cfg) pop hpopmem with hold | hnew
    · exact absurd hold (List.not_mem_nil pop)
    · obtain ⟨hlen, hall⟩ := hnew
      have hne : pop.particles ≠ [] := by
        intro hnil
        rw [hnil] at hlen
        simp at hlen
        omega
      exact sum_modelProbability hne (fun p hp => (hall p hp).1.1)
        (fun p hp => (hall p hp).1.2)
  refine ⟨hpop, ?_⟩
  intro row hrow
  unfold getModelProbabilities at hrow
  obtain ⟨pop, hpopmem, rfl⟩ := List.mem_map.mp hrow
  rw [list_range_map_sum]
  exact hpop pop hpopmem

/-- C5: A successful Population Sampler call returns exactly the requested
number of accepted particles, each with distance at most the epsilon it was
sampled at; consequently every population a run records has exactly the
configured population size and every particle in it respects the
population's recorded threshold. -/
theorem population_size_and_distance_bound (cfg : Config)
    (minimumEpsilon : ℚ) (n : ℕ) :
    (∀ (eps : ℚ) (draws : ℕ → Option Particle) (budget idx k : ℕ)
        (ps : List Particle),
        fillPopulation eps draws budget idx k = .ok ps →
        ps.length = k ∧ ∀ p ∈ ps, p.distance ≤ eps)
    ∧ ∀ pop ∈ (runLoop cfg minimumEpsilon n (newEngine cfg)).state.history,
        pop.particles.length = cfg.populationSize
          ∧ ∀ p ∈ pop.particles, p.distance ≤ pop.epsilon := by
  constructor
  · intro eps draws budget idx k ps hfill
    exact ⟨fillPopulation_ok_length hfill,
      fun p hp => (fillPopulation_ok_mem hfill p hp).1⟩
  · intro pop hpopmem
    rcases runLoop_history_mem (fun _ => True) (fun _ _ _ _ => trivial)
        n (newEngine cfg) pop hpopmem with hold | hnew
    · exact absurd hold (List.not_mem_nil pop)
    · exact ⟨hnew.1, fun p hp => (hnew.2 p hp).2⟩

/-- C6: The Epsilon Schedule's default policy: the initial epsilon computed
at `new` is the median of the prior-predictive distance sample — derived
purely from that distribution, as no population exists at t = 0 — and after
each completed population the next epsilon is the median of that
population's accepted distances. -/
theorem epsilon_schedule_median_policy (cfg : Config) (eng eng' : Engine)
    (hstep : populateStep cfg eng = .ok eng') :
    (newEngine cfg).currentEpsilon = medianEpsilon cfg.priorPredictiveDistances
    ∧ ∃ pop, eng'.history = eng.history ++ [pop]
        ∧ eng'.currentEpsilon = medianEpsilon pop.distances
        ∧ pop.epsilon = eng.currentEpsilon := by
  obtain ⟨ps, hfill, heq⟩ := populateStep_ok hstep
  subst heq
  exact ⟨rfl, ⟨eng.history.length, eng.currentEpsilon, ps⟩, rfl, rfl, rfl⟩

/-- C7: Resume is idempotent at zero extra populations: after `new` and
`run(eps, k)`, a `load` of the stored history followed by `run(eps, 0)`
leaves both the number of populations and the model-probability table
exactly as after the first run. -/
theorem resume_idempotent_zero (cfg : Config) (minimumEpsilon : ℚ) (k : ℕ) :
    nPopulations (runLoop cfg minimumEpsilon 0 (loadEngine cfg
          (runLoop cfg minimumEpsilon k (newEngine cfg)).state.history)).state.history
        = nPopulations (runLoop cfg minimumEpsilon k (newEngine cfg)).state.history
    ∧ getModelProbabilities cfg.numModels
          (runLoop cfg minimumEpsilon 0 (loadEngine cfg
            (runLoop cfg minimumEpsilon k (newEngine cfg)).state.history)).state.history
        = getModelProbabilities cfg.numModels
            (runLoop cfg minimumEpsilon k (newEngine cfg)).state.history := by
  have hh : (runLoop cfg minimumEpsilon 0 (loadEngine cfg
        (runLoop cfg minimumEpsilon k (newEngine cfg)).state.history)).state.history
      = (runLoop cfg minimumEpsilon k (newEngine cfg)).state.history := by
    rw [runLoop_zero_state]
    rfl
  exact ⟨congrArg List.length hh, congrArg _ hh⟩

/-- C8: A Model invocation that raises during a draw is treated as a failed
simulation: the draw is discarded and the sampler retries with the next
attempt instead of propagating the failure; only when the retry budget is
exceeded does the sampler fail, with `SamplingExhaustedError`, in which
case the run call stops with an `exhausted` outcome while the persisted
history is untouched and `load` reattaches to exactly it. -/
theorem model_failure_discarded_and_retried :
    (∀ (eps : ℚ) (draws : ℕ → Option Particle) (b idx n : ℕ),
        draws idx = none →
        fillPopulation eps draws (b + 1) idx (n + 1) =
          fillPopulation eps draws b (idx + 1) (n + 1))
    ∧ (∀ (eps : ℚ) (draws : ℕ → Option Particle) (idx n : ℕ),
        fillPopulation eps draws 0 idx (n + 1) = .error .samplingExhausted)
    ∧ ∀ (cfg : Config) (minimumEpsilon : ℚ) (r : ℕ) (eng : Engine)
        (e : SamplingError),
        minimumEpsilon < eng.currentEpsilon →
        populateStep cfg eng = .error e →
        runLoop cfg minimumEpsilon (r + 1) eng = ⟨eng, .exhausted⟩
          ∧ e = .samplingExhausted
          ∧ (loadEngine cfg eng.history).history = eng.history := by
  refine ⟨?_, fillPopulation_no_budget, ?_⟩
  · intro eps draws b idx n hnone
    simp only [fillPopulation_succ, hnone]
  · intro cfg minimumEpsilon r eng e hlt hstep
    cases e
    exact ⟨by simp only [runLoop_succ, if_neg (not_le_of_lt hlt), hstep], rfl, rfl⟩

/-- C9: After a fresh run capped at two populations, at most two
populations exist and the final epsilon is at most the initial epsilon
computed at `new` time: each accepted distance is bounded by the threshold
it was accepted at, so the median schedule cannot increase along the run,
whatever the minimum epsilon requested. -/
theorem run_two_populations_epsilon_bound (cfg : Config)
    (minimumEpsilon : ℚ) (hN : 0 < cfg.populationSize) :
    nPopulations (runLoop cfg minimumEpsilon 2 (newEngine cfg)).state.history ≤ 2
    ∧ (runLoop cfg minimumEpsilon 2 (newEngine cfg)).state.currentEpsilon
        ≤ (newEngine cfg).currentEpsilon := by
  constructor
  · have := runLoop_length_le cfg minimumEpsilon 2 (newEngine cfg)
    simpa [newEngine, nPopulations] using this
  · exact runLoop_eps_le minimumEpsilon hN 2 (newEngine cfg)

/-- C10: The History handle the `run` method returns is the engine's own
`history` attribute after the run: queries through either reference observe
the same state. -/
theorem run_handle_is_engine_history (abc : ABCSMC) (minimumEpsilon : ℚ)
    (maxPopulations : ℕ) :
    (abc.run minimumEpsilon maxPopulations).2 =
      ABCSMC.history (abc.run minimumEpsilon maxPopulations).1 := rfl

/-! ## Witnesses: the claim theorems applied at explicit concrete inputs -/

theorem population_persistence_atomic_witness :
    (∀ pop ∈ (runLoop sampleConfig 0 1 (newEngine sampleConfig)).state.history,
        pop.particles.length = sampleConfig.populationSize)
    ∧ nPopulations
          (loadEngine sampleConfig
            (runLoop sampleConfig 0 1 (newEngine sampleConfig)).state.history).history
        = (runLoop sampleConfig 0 1 (newEngine sampleConfig)).state.history.length
    ∧ ∀ e : Engine,
        (∃ ps, ps.length = sampleConfig.populationSize ∧
            populateStep sampleConfig e =
              .ok { history := e.history ++ [⟨e.history.length, e.currentEpsilon, ps⟩]
                    currentEpsilon := medianEpsilon (ps.map Particle.distance) })
        ∨ populateStep sampleConfig e = .error .samplingExhausted :=
  population_persistence_atomic sampleConfig 0 1 (newEngine sampleConfig)
    (by intro pop hpop; cases hpop)

theorem run_loop_stops_at_bounds_witness :
    runLoop sampleConfig 0 1 (newEngine sampleConfig) =
        runLoop sampleConfig 0 0 sampleEngine1
      ∧ runLoop sampleConfig 0 0 sampleEngine1 =
          ⟨sampleEngine1, .maxPopulationsReached⟩ :=
  ⟨(run_loop_stops_at_bounds sampleConfig 0 1 (newEngine sampleConfig)).1 0
      sampleEngine1 rfl (by decide) rfl,
    (run_loop_stops_at_bounds sampleConfig 0 0 sampleEngine1).2.2.1 (by decide)⟩

theorem resume_monotonic_progress_witness :
    (nPopulations (runLoop sampleConfig (mkRat 1 10) 1
            (loadEngine sampleConfig sampleHistory3)).state.history
          = nPopulations sampleHistory3 + 1
      ∨ (nPopulations (runLoop sampleConfig (mkRat 1 10) 1
              (loadEngine sampleConfig sampleHistory3)).state.history
            < nPopulations sampleHistory3 + 1
          ∧ (runLoop sampleConfig (mkRat 1 10) 1
                (loadEngine sampleConfig sampleHistory3)).state.currentEpsilon
              ≤ mkRat 1 10))
    ∧ nPopulations (runLoop sampleConfig (mkRat 1 10) 1
          (loadEngine sampleConfig sampleHistory3)).state.history = 4 :=
  ⟨resume_monotonic_progress sampleConfig sampleHistory3 (mkRat 1 10) 1
      (by decide),
    by decide⟩

theorem model_probabilities_sum_to_one_witness :
    ∑ m ∈ Finset.range sampleConfig.numModels,
        modelProbability samplePopulation0 m = 1 :=
  (model_probabilities_sum_to_one sampleConfig 0 1 (by decide)
      (fun t i p hp => by
        injection hp with hp
        cases hp
        exact ⟨by decide, by decide⟩)).1
    samplePopulation0 (by decide)

theorem population_size_and_distance_bound_witness :
    (([sampleParticle].length = 1
        ∧ ∀ p ∈ [sampleParticle], p.distance ≤ 1)
      ∧ samplePopulation0.particles.length = sampleConfig.populationSize
      ∧ ∀ p ∈ samplePopulation0.particles, p.distance ≤ samplePopulation0.epsilon) :=
  ⟨(population_size_and_distance_bound sampleConfig 0 1).1 1
      (fun _ => some sampleParticle) 2 0 1 [sampleParticle] rfl,
    (population_size_and_distance_bound sampleConfig 0 1).2
      samplePopulation0 (by decide)⟩

theorem epsilon_schedule_median_policy_witness :
    (newEngine sampleConfig).currentEpsilon
        = medianEpsilon sampleConfig.priorPredictiveDistances
    ∧ ∃ pop, sampleEngine1.history = (newEngine sampleConfig).history ++ [pop]
        ∧ sampleEngine1.currentEpsilon = medianEpsilon pop.distances
        ∧ pop.epsilon = (newEngine sampleConfig).currentEpsilon :=
  epsilon_schedule_median_policy sampleConfig (newEngine sampleConfig)
    sampleEngine1 rfl

theorem model_failure_discarded_and_retried_witness :
    fillPopulation 1 failingDraws 2 0 1 = fillPopulation 1 failingDraws 1 1 1
    ∧ fillPopulation 1 failingDraws 0 5 1 = .error .samplingExhausted :=
  ⟨model_failure_discarded_and_retried.1 1 failingDraws 1 0 0 rfl,
    model_failure_discarded_and_retried.2.1 1 failingDraws 5 0⟩

theorem run_two_populations_epsilon_bound_witness :
    nPopulations
        (runLoop sampleConfig (mkRat 1 20) 2 (newEngine sampleConfig)).state.history
        ≤ 2
    ∧ (runLoop sampleConfig (mkRat 1 20) 2 (newEngine sampleConfig)).state.currentEpsilon
        ≤ (newEngine sampleConfig).currentEpsilon :=
  run_two_populations_epsilon_bound sampleConfig (mkRat 1 20) (by decide)

end PyABC
